import Mathlib

/-!
Shallow embedding of `src/midterm_project/localization/src/localizer_node.cpp`.

The node is a single class `Localizer` with three ROS callbacks:

* `map_callback`  : stores the incoming point cloud in `map_points`, sets `map_ready`;
* `gps_callback`  : stores the incoming fix in `gps_point` (on every message), sets `gps_ready`;
* `pc_callback`   : waits for readiness, runs `align_map` on the scan, appends one row
  `++cnt, x, y, z, yaw, pitch, roll` to the result file.

`align_map` voxel-filters the map and the scan, and on the first processed frame
(`!initialied`) runs a heading search: for `yaw = 0; yaw < 0.2; yaw += 0.05` it builds the
guess `translate(gps_point) * rotZ(yaw)`, calls a fresh ICP object (`first_icp`), and keeps
the final transformation of the strictly-best-scoring call (`min_score` starts at
`std::numeric_limits<float>::max()`).  It then always performs one steady-state ICP call
with `init_guess`, accumulates that call's fitness into `localization_score`, stores the
result back into `init_guess` and returns it.

External collaborators (PCL voxel filter, PCL ICP, the guess construction from a
translation and a z-rotation) are modelled as oracle functions bundled in `Collab`;
point clouds and rigid transforms are opaque type parameters `C` and `P` for the
event-level model.  Scalars (fitness scores, leaf sizes) are exact rationals.
The frame-composition arithmetic of `pc_callback` (lines 169-182) is modelled separately
and concretely with 3x3 rational matrices further below.
-/

namespace LocalizerModel

/-- `std::numeric_limits<float>::max()` = (2 - 2^-23) * 2^127 = 2^128 - 2^104,
the initial value of `min_score` in the heading search. -/
def fltMax : ℚ := 340282346638528859811704183484516925440

/-- `pcl::PointXYZ gps_point`: the stored absolute-position fix. -/
structure Pt3 where
  x : ℚ
  y : ℚ
  z : ℚ
  deriving DecidableEq, Repr

/-- One step of the heading-search selection (body of the `if (score < min_score)` update
at lines 278-285): a candidate replaces the running best exactly when its score is
strictly smaller. -/
def searchStep {P : Type} (best cand : P × ℚ) : P × ℚ :=
  if cand.2 < best.2 then cand else best

/-- The heading search over a list of registrar outcomes (pose and fitness per candidate):
fold of `searchStep` starting from `(Eigen::Matrix4f::Identity(), FLT_MAX)`
(lines 246-247, 278-286). -/
def bootFold {P : Type} (identP : P) (cs : List (P × ℚ)) : P × ℚ :=
  cs.foldl searchStep (identP, fltMax)

/-- The loop `for (yaw = 0; yaw < 0.2; yaw += 0.05)` (line 250), in exact rational
arithmetic, with a fuel bound (the fuel is a modelling artifact; `headings_fuel_ge`
below shows any fuel of at least 5 yields the same list, and the loop exits after the
4th iteration).  In the source, `yaw` is a `float` accumulated with a `double` literal;
the rounded float iterates 0, 0.050000001, 0.100000001, 0.150000006 satisfy `< 0.2`
exactly as often as the exact values 0, 1/20, 1/10, 3/20 do, so the candidate count of
the exact model agrees with the compiled code. -/
def headingsFrom (yaw : ℚ) : ℕ → List ℚ
  | 0 => []
  | n + 1 => if yaw < 1/5 then yaw :: headingsFrom (yaw + 1/20) n else []

/-- The enumerated candidate headings. -/
def headings : List ℚ := headingsFrom 0 5

/-- One entry of the registrar-invocation log: which ICP object was called
(`first_icp` during the heading search, member `icp` for the steady-state call)
and the fitness score it returned. -/
structure RegCall where
  isBoot : Bool
  fitness : ℚ
  deriving DecidableEq, Repr

/-- One row of the result trace (one per processed scan), enriched with the data the
claims are about: `id` is the value `++cnt` written to the file; `bootGps`/`bootBest`
record, when this frame ran the heading search, the fix coordinates it used and the
pose it selected; `mapUsed` is the stored map cloud the registration target was derived
from; `guess` is the initial guess handed to the steady-state ICP call; `result` is the
transformation it returned. -/
structure Rec (C P : Type) where
  id : ℕ
  bootGps : Option Pt3
  bootBest : Option P
  mapUsed : C
  guess : P
  result : P
  deriving DecidableEq, Repr

/-- The mutable state of the `Localizer` object (fields of the C++ class), plus the
observable outputs: the result-file rows (`trace`) and the registrar-invocation log
(`regLog`). -/
structure St (C P : Type) where
  gps_point : Pt3
  gps_ready : Bool
  map_ready : Bool
  initialied : Bool
  init_guess : P
  cnt : ℕ
  map_points : C
  localization_score : ℚ
  trace : List (Rec C P)
  regLog : List RegCall
  deriving DecidableEq

/-- The external collaborators (out of scope per the spec, injected as oracles):
`vf leaf cloud` is the voxel-grid downsampler; `firstReg src tgt guess` is the
heading-search ICP object (`first_icp`, max correspondence distance 2);
`reg src tgt guess` is the steady-state ICP object (member `icp`, distance 1); both
return the final transformation and the fitness score.  `mkGuess fix yaw` is
`Eigen::Translation3f(fix) * Eigen::AngleAxisf(yaw, UnitZ)`; `identP` is
`Eigen::Matrix4f::Identity()`; `emptyC` the empty cloud allocated in the constructor. -/
structure Collab (C P : Type) where
  vf : ℚ → C → C
  firstReg : C → C → P → P × ℚ
  reg : C → C → P → P × ℚ
  mkGuess : Pt3 → ℚ → P
  identP : P
  emptyC : C
  mapLeafSize : ℚ
  scanLeafSize : ℚ

/-- The events delivered by the transport layer (out of scope): a map message,
an absolute-position fix, a scan frame. -/
inductive Ev (C : Type) where
  | map (m : C)
  | gps (p : Pt3)
  | scan (c : C)
  deriving DecidableEq, Repr

/-- Whether an event is a scan frame. -/
def Ev.isScan {C : Type} : Ev C → Bool
  | Ev.scan _ => true
  | _ => false

/-- `align_map` (lines 226-310) followed by the row append of `pc_callback` (line 182):
filter both clouds; if `!initialied`, run the heading search (lines 243-291) over
`headings`, select with `bootFold`, and use the selected pose as the steady-state
initial guess (line 289); always run the steady-state ICP call (lines 297-305),
accumulate its fitness into `localization_score`, store its result into `init_guess`
(line 308), set `initialied`, increment `cnt` and append the row. -/
def procScan {C P : Type} (o : Collab C P) (s : St C P) (scan : C) : St C P :=
  let filtered_scan := o.vf o.scanLeafSize scan
  let filtered_map := o.vf o.mapLeafSize s.map_points
  let boot : Option (Pt3 × P × List RegCall) :=
    if s.initialied then none
    else
      let cands := headings.map fun yaw =>
        o.firstReg filtered_scan filtered_map (o.mkGuess s.gps_point yaw)
      some (s.gps_point, (bootFold o.identP cands).1,
            cands.map fun c => { isBoot := true, fitness := c.2 })
  let g : P :=
    match boot with
    | none => s.init_guess
    | some b => b.2.1
  let pr := o.reg filtered_scan filtered_map g
  { s with
    initialied := true
    init_guess := pr.1
    localization_score := s.localization_score + pr.2
    cnt := s.cnt + 1
    trace := s.trace ++ [{ id := s.cnt + 1, bootGps := boot.map fun b => b.1,
                           bootBest := boot.map fun b => b.2.1,
                           mapUsed := s.map_points, guess := g, result := pr.1 }]
    regLog := s.regLog ++ (match boot with | none => [] | some b => b.2.2)
              ++ [{ isBoot := false, fitness := pr.2 }] }

/-- Dispatch of a single delivered event.  `map_callback` (lines 102-107) overwrites
`map_points` and sets `map_ready`; `gps_callback` (lines 194-218) overwrites `gps_point`
and sets `gps_ready` (the `!initialied` block only publishes, it changes no state the
claims mention); `pc_callback` (lines 114-187) processes a scan once both readiness
flags hold (the source busy-waits for them; a scan arriving before readiness is
modelled as unprocessed, and the readiness hypotheses of the theorems below mirror
the gate). -/
def stepEv {C P : Type} (o : Collab C P) (s : St C P) (e : Ev C) : St C P :=
  match e with
  | Ev.map m => { s with map_points := m, map_ready := true }
  | Ev.gps p => { s with gps_point := p, gps_ready := true }
  | Ev.scan c => if s.gps_ready && s.map_ready then procScan o s c else s

/-- The state right after the constructor: flags false, `init_guess.setIdentity()`
(line 83), `cnt = 0`, empty map cloud, `localization_score = 0`, empty trace. -/
def s0 {C P : Type} (o : Collab C P) : St C P :=
  { gps_point := ⟨0, 0, 0⟩, gps_ready := false, map_ready := false, initialied := false,
    init_guess := o.identP, cnt := 0, map_points := o.emptyC, localization_score := 0,
    trace := [], regLog := [] }

/-- Processing a list of events from a given state. -/
def runFrom {C P : Type} (o : Collab C P) (s : St C P) (evs : List (Ev C)) : St C P :=
  evs.foldl (stepEv o) s

/-- A run of the node on a list of delivered events. -/
def run {C P : Type} (o : Collab C P) (evs : List (Ev C)) : St C P :=
  runFrom o (s0 o) evs

/-- The payload of the last map message in an event list, if any. -/
def lastMap? {C : Type} : List (Ev C) → Option C
  | [] => none
  | e :: es =>
    match lastMap? es with
    | some m => some m
    | none => match e with
              | Ev.map m => some m
              | _ => none

/-- The payload of the last position fix in an event list, if any. -/
def lastGps? {C : Type} : List (Ev C) → Option Pt3
  | [] => none
  | e :: es =>
    match lastGps? es with
    | some p => some p
    | none => match e with
              | Ev.gps p => some p
              | _ => none

/-- The synthetic fitness scores of the spec's test vector, paired with candidate tags. -/
def exCands : List (ℕ × ℚ) := [(0, 5), (1, 3), (2, 4), (3, 7/2), (4, 6)]

/-- Concrete collaborators over natural-number clouds and poses, for evaluating
runs on explicit inputs: the downsampler is the identity, both registrars echo the
guess with fitness 0, and the guess builder returns a fixed tag. -/
def exO : Collab ℕ ℕ :=
  { vf := fun _ c => c, firstReg := fun _ _ g => (g, 0), reg := fun _ _ g => (g, 0),
    mkGuess := fun _ _ => 7, identP := 42, emptyC := 0, mapLeafSize := 1, scanLeafSize := 1 }

/-- The run invariant, holding in every reachable state: the trace rows carry ids
`1..cnt` in order; the registrar log is a block of 4 heading-search calls (present iff
any frame was processed) followed by one steady-state call per processed frame; rows
chain guess-to-result; only the first row ran the heading search and its guess is the
search's selection; the last row's result is the current `init_guess`; the accumulated
`localization_score` is the sum of the steady-state fitnesses. -/
structure InvSt {C P : Type} (s : St C P) : Prop where
  trace_len : s.trace.length = s.cnt
  init_flag : s.initialied = decide (0 < s.cnt)
  ids : s.trace.map (fun r => r.id) = List.range' 1 s.cnt
  logPat : s.regLog.map (fun c => c.isBoot) =
    if s.cnt = 0 then [] else List.replicate 4 true ++ List.replicate s.cnt false
  bootCnt : (s.regLog.filter fun c => c.isBoot).length = if s.cnt = 0 then 0 else 4
  bootPat : s.trace.map (fun r => r.bootBest.isSome) =
    if s.cnt = 0 then [] else true :: List.replicate (s.cnt - 1) false
  chain : List.Chain' (fun a b => b.guess = a.result) s.trace
  firstGuess : s.trace.head?.map (fun r => r.bootBest) =
    s.trace.head?.map (fun r => some r.guess)
  lastResult : s.trace.getLast?.map (fun r => r.result) =
    if s.cnt = 0 then none else some s.init_guess
  scoreSum : s.localization_score =
    ((s.regLog.filter fun c => !c.isBoot).map (fun c => c.fitness)).sum
  steadyCnt : (s.regLog.filter fun c => !c.isBoot).length = s.cnt

/-- The stored sensor extrinsics (`geometry_msgs::Transform car2Lidar`): translation
and quaternion components. -/
structure Car2Lidar where
  tx : ℚ
  ty : ℚ
  tz : ℚ
  qx : ℚ
  qy : ℚ
  qz : ℚ
  qw : ℚ
  deriving DecidableEq, Repr

/-- `std::vector::at`: the element at the index, or a thrown `std::out_of_range`. -/
def vecAt (l : List ℚ) (i : ℕ) : Except Unit ℚ :=
  match l.get? i with
  | some v => Except.ok v
  | none => Except.error ()

/-- The extrinsics portion of the constructor (lines 66-76): whether the configuration
error was logged (`trans.size() != 3 | rot.size() != 4` — the bitwise or agrees with
logical or here, both operands being side-effect free), and the result of the
bounds-checked copies in program order (`Except.error` models the uncaught
`std::out_of_range` thrown by `std::vector::at`, which aborts startup). -/
def ctorSetup (trans rot : List ℚ) : Bool × Except Unit Car2Lidar :=
  (decide (¬ trans.length = 3 ∨ ¬ rot.length = 4),
    do
      let tx ← vecAt trans 0
      let ty ← vecAt trans 1
      let tz ← vecAt trans 2
      let qx ← vecAt rot 0
      let qy ← vecAt rot 1
      let qz ← vecAt rot 2
      let qw ← vecAt rot 3
      Except.ok { tx := tx, ty := ty, tz := tz, qx := qx, qy := qy, qz := qz, qw := qw })

/-- An affine transform: linear part and translation (the homogeneous 4x4 matrix
`[[A, t], [0, 1]]`). -/
structure Aff where
  lin : Matrix (Fin 3) (Fin 3) ℚ
  tr : Fin 3 → ℚ

/-- Composition of affine transforms (homogeneous matrix product):
`[[A, a], [0, 1]] * [[B, b], [0, 1]] = [[A * B, A b + a], [0, 1]]`. -/
def affMul (a b : Aff) : Aff :=
  { lin := a.lin * b.lin, tr := a.lin.mulVec b.tr + a.tr }

/-- The explicit inverse of a 3x3 rational matrix via the adjugate, as computed by the
general affine inverse of `Eigen::Transform::inverse` in `Affine` mode. -/
def matInvQ (A : Matrix (Fin 3) (Fin 3) ℚ) : Matrix (Fin 3) (Fin 3) ℚ :=
  A.det⁻¹ • A.adjugate

/-- General affine inverse: `[A, t]⁻¹ = [A⁻¹, -(A⁻¹ t)]`. -/
def affInv (a : Aff) : Aff :=
  { lin := matInvQ a.lin, tr := -(matInvQ a.lin).mulVec a.tr }

/-- Rigid-transform inverse: `[R, t]⁻¹ = [Rᵀ, -(Rᵀ t)]`. -/
def rigidInv (a : Aff) : Aff :=
  { lin := a.lin.transpose, tr := -a.lin.transpose.mulVec a.tr }

/-- The rotation matrix of the quaternion `(x, y, z, w)` (Eigen's
`toRotationMatrix`, used by `tf2::transformToEigen`). -/
def quatToMat (x y z w : ℚ) : Matrix (Fin 3) (Fin 3) ℚ :=
  !![1 - 2*(y^2 + z^2), 2*(x*y - z*w), 2*(x*z + y*w);
     2*(x*y + z*w), 1 - 2*(x^2 + z^2), 2*(y*z - x*w);
     2*(x*z - y*w), 2*(y*z + x*w), 1 - 2*(x^2 + y^2)]

/-- The map-to-vehicle pose recorded by `pc_callback`:
`tf_p = transform_m2l * transform_c2l.inverse()` (line 175), with `transform_c2l`
built from the extrinsics quaternion `(x, y, z, w)` and translation `t`. -/
def recordedPose (result : Aff) (x y z w : ℚ) (t : Fin 3 → ℚ) : Aff :=
  affMul result (affInv { lin := quatToMat x y z w, tr := t })

/-- Modelled from the spec's words (section 4.3): `mapToVehicle = mapToSensor ∘
inverse(sensorToVehicle)` with the rigid-transform inverse — full composition of
rotation and translation jointly, not componentwise subtraction. -/
def specMapToVehicle (mapToSensor sensorToVehicle : Aff) : Aff :=
  affMul mapToSensor (rigidInv sensorToVehicle)

/-- Characterization of the heading-search fold with an arbitrary running best:
either no candidate strictly beats the accumulator (and the fold returns the
accumulator, since ties keep it), or the fold returns the first candidate achieving
the minimum score, which also strictly beats the accumulator. -/
theorem foldl_searchStep_spec {P : Type} :
    ∀ (cs : List (P × ℚ)) (acc : P × ℚ),
      (cs.foldl searchStep acc = acc ∧ ∀ c ∈ cs, acc.2 ≤ c.2) ∨
      (∃ (i : ℕ) (b : P × ℚ), cs.get? i = some b ∧ cs.foldl searchStep acc = b ∧
        b.2 < acc.2 ∧ (∀ c ∈ cs, b.2 ≤ c.2) ∧
        ∀ (j : ℕ) (c : P × ℚ), j < i → cs.get? j = some c → b.2 < c.2)
  | [], acc => Or.inl ⟨rfl, by simp⟩
  | c :: cs, acc => by
    by_cases hc : c.2 < acc.2
    · have hfold : (c :: cs).foldl searchStep acc = cs.foldl searchStep c := by
        simp [searchStep, hc]
      rcases foldl_searchStep_spec cs c with ⟨heq, hall⟩ | ⟨i, b, hget, heq, hlt, hmin, hearly⟩
      · right
        refine ⟨0, c, rfl, by rw [hfold, heq], hc, ?_, ?_⟩
        · intro d hd
          rcases List.mem_cons.mp hd with h | h
          · exact le_of_eq (by rw [h])
          · exact hall d h
        · intro j d hj hgd
          exact absurd hj (Nat.not_lt_zero j)
      · right
        refine ⟨i + 1, b, by simpa using hget, by rw [hfold, heq], lt_trans hlt hc, ?_, ?_⟩
        · intro d hd
          rcases List.mem_cons.mp hd with h | h
          · rw [h]; exact le_of_lt hlt
          · exact hmin d h
        · intro j d hj hgd
          match j with
          | 0 =>
            have hcd : c = d := by simpa using hgd
            rw [← hcd]; exact hlt
          | Nat.succ j =>
            exact hearly j d (by omega) (by simpa using hgd)
    · have hfold : (c :: cs).foldl searchStep acc = cs.foldl searchStep acc := by
        simp [searchStep, hc]
      push_neg at hc
      rcases foldl_searchStep_spec cs acc with ⟨heq, hall⟩ | ⟨i, b, hget, heq, hlt, hmin, hearly⟩
      · left
        refine ⟨by rw [hfold, heq], ?_⟩
        intro d hd
        rcases List.mem_cons.mp hd with h | h
        · rw [h]; exact hc
        · exact hall d h
      · right
        refine ⟨i + 1, b, by simpa using hget, by rw [hfold, heq], hlt, ?_, ?_⟩
        · intro d hd
          rcases List.mem_cons.mp hd with h | h
          · rw [h]; exact le_trans (le_of_lt hlt) hc
          · exact hmin d h
        · intro j d hj hgd
          match j with
          | 0 =>
            have hcd : c = d := by simpa using hgd
            rw [← hcd]; exact lt_of_lt_of_le hlt hc
          | Nat.succ j =>
            exact hearly j d (by omega) (by simpa using hgd)

/-- Claim C1: the heading search returns the outcome of the candidate with the minimum
fitness among the enumerated candidates, and on ties keeps the earliest: for any
nonempty sequence of registrar outcomes whose scores are below the `FLT_MAX`
sentinel, the fold selects the candidate at some index `i` whose score is a minimum
of all scores and is strictly below every earlier candidate's score. -/
theorem C1_select_first_min {P : Type} (identP : P) (cs : List (P × ℚ))
    (hne : cs ≠ []) (hb : ∀ c ∈ cs, c.2 < fltMax) :
    ∃ (i : ℕ) (b : P × ℚ), cs.get? i = some b ∧ bootFold identP cs = b ∧
      (∀ c ∈ cs, b.2 ≤ c.2) ∧
      ∀ (j : ℕ) (c : P × ℚ), j < i → cs.get? j = some c → b.2 < c.2 := by
  rcases foldl_searchStep_spec cs (identP, fltMax) with ⟨heq, hall⟩ |
    ⟨i, b, hget, heq, hltacc, hmin, hearly⟩
  · rcases cs with _ | ⟨c, cs⟩
    · exact absurd rfl hne
    · exact absurd (hall c (List.mem_cons_self c cs))
        (not_le.mpr (hb c (List.mem_cons_self c cs)))
  · exact ⟨i, b, hget, heq, hmin, hearly⟩

/-- Witness for C1 at the spec's synthetic scores `[5, 3, 4, 3.5, 6]`: the selection
picks the candidate with score 3 (index 1). -/
theorem C1_select_first_min_witness :
    (exCands ≠ [] ∧ ∀ c ∈ exCands, c.2 < fltMax) ∧
      (∃ (i : ℕ) (b : ℕ × ℚ), exCands.get? i = some b ∧ bootFold 42 exCands = b ∧
        (∀ c ∈ exCands, b.2 ≤ c.2) ∧
        ∀ (j : ℕ) (c : ℕ × ℚ), j < i → exCands.get? j = some c → b.2 < c.2) :=
  ⟨⟨by decide, by with_unfolding_all decide⟩,
    C1_select_first_min 42 exCands (by decide) (by with_unfolding_all decide)⟩

/-- The enumeration of the loop `for (yaw = 0; yaw < 0.2; yaw += 0.05)` yields the four
headings 0, 0.05, 0.10, 0.15. -/
theorem headings_eq : headings = [0, 1/20, 1/10, 3/20] := by
  with_unfolding_all decide

/-- The fuel bound of `headingsFrom` is not load-bearing: any fuel of at least 5
produces the same four headings, because after the fourth iteration `yaw` reaches
0.2 and the loop condition fails. -/
theorem headings_fuel_ge (n : ℕ) : headingsFrom 0 (n + 5) = headings := by
  have h0 : (0 : ℚ) + 1/20 = 1/20 := by norm_num
  have h1 : (1 : ℚ)/20 + 1/20 = 1/10 := by norm_num
  have h2 : (1 : ℚ)/10 + 1/20 = 3/20 := by norm_num
  have h3 : (3 : ℚ)/20 + 1/20 = 1/5 := by norm_num
  show headingsFrom 0 (n + 4 + 1) = headings
  rw [headingsFrom, if_pos (by norm_num : (0 : ℚ) < 1/5), h0]
  show (0 : ℚ) :: headingsFrom (1/20) (n + 3 + 1) = headings
  rw [headingsFrom, if_pos (by norm_num : (1 : ℚ)/20 < 1/5), h1]
  show (0 : ℚ) :: (1/20 : ℚ) :: headingsFrom (1/10) (n + 2 + 1) = headings
  rw [headingsFrom, if_pos (by norm_num : (1 : ℚ)/10 < 1/5), h2]
  show (0 : ℚ) :: (1/20 : ℚ) :: (1/10 : ℚ) :: headingsFrom (3/20) (n + 1 + 1) = headings
  rw [headingsFrom, if_pos (by norm_num : (3 : ℚ)/20 < 1/5), h3]
  show (0 : ℚ) :: (1/20 : ℚ) :: (1/10 : ℚ) :: (3/20 : ℚ) ::
    headingsFrom (1/5) (n + 0 + 1) = headings
  rw [headingsFrom, if_neg (by norm_num : ¬ ((1 : ℚ)/5 < 1/5))]
  rw [headings_eq]

/-- Mapping the boot tag over a block of heading-search calls yields replicated `true`. -/
theorem map_isBoot_boot {α : Type} (f : α → RegCall) (hf : ∀ x, (f x).isBoot = true)
    (l : List α) :
    ((l.map f).map fun c => c.isBoot) = List.replicate l.length true := by
  induction l with
  | nil => rfl
  | cons a l ih => simp [ih, hf a, List.replicate_succ]

/-- Filtering the heading-search calls out of a block of heading-search calls keeps all. -/
theorem filter_boot_boot {α : Type} (f : α → RegCall) (hf : ∀ x, (f x).isBoot = true)
    (l : List α) :
    ((l.map f).filter fun c => c.isBoot) = l.map f := by
  induction l with
  | nil => rfl
  | cons a l ih => simp [ih, hf a]

/-- Filtering the steady-state calls out of a block of heading-search calls keeps none. -/
theorem filter_steady_boot {α : Type} (f : α → RegCall) (hf : ∀ x, (f x).isBoot = true)
    (l : List α) :
    ((l.map f).filter fun c => !c.isBoot) = [] := by
  induction l with
  | nil => rfl
  | cons a l ih => simp [ih, hf a]

/-- The constructor's state satisfies the invariant. -/
theorem inv_s0 {C P : Type} (o : Collab C P) : InvSt (s0 o) := by
  refine ⟨?_, ?_, ?_, ?_, ?_, ?_, ?_, ?_, ?_, ?_, ?_⟩ <;> simp [s0]

/-- Every event dispatch preserves the invariant. -/
theorem InvSt.step {C P : Type} (o : Collab C P) (s : St C P) (e : Ev C)
    (h : InvSt s) : InvSt (stepEv o s e) := by
  cases e with
  | map m =>
    exact { trace_len := h.trace_len, init_flag := h.init_flag, ids := h.ids,
            logPat := h.logPat, bootCnt := h.bootCnt, bootPat := h.bootPat,
            chain := h.chain, firstGuess := h.firstGuess, lastResult := h.lastResult,
            scoreSum := h.scoreSum, steadyCnt := h.steadyCnt }
  | gps p =>
    exact { trace_len := h.trace_len, init_flag := h.init_flag, ids := h.ids,
            logPat := h.logPat, bootCnt := h.bootCnt, bootPat := h.bootPat,
            chain := h.chain, firstGuess := h.firstGuess, lastResult := h.lastResult,
            scoreSum := h.scoreSum, steadyCnt := h.steadyCnt }
  | scan c =>
    by_cases hr : (s.gps_ready && s.map_ready) = true
    · rw [show stepEv o s (Ev.scan c) = procScan o s c by simp [stepEv, hr]]
      by_cases hinit : s.initialied = true
      · -- steady-state frame: at least one frame was already processed
        have hcnt : 0 < s.cnt := by
          have hf := h.init_flag
          rw [hinit] at hf
          exact of_decide_eq_true hf.symm
        have hcne : s.cnt ≠ 0 := Nat.pos_iff_ne_zero.mp hcnt
        obtain ⟨n, hn⟩ : ∃ n, s.cnt = n + 1 := ⟨s.cnt - 1, by omega⟩
        obtain ⟨a, t, ht⟩ : ∃ a t, s.trace = a :: t := by
          cases htr : s.trace with
          | nil =>
            exfalso
            have := h.trace_len
            rw [htr] at this
            simp at this
            exact hcne this.symm
          | cons a t => exact ⟨a, t, rfl⟩
        refine ⟨?_, ?_, ?_, ?_, ?_, ?_, ?_, ?_, ?_, ?_, ?_⟩
        · simp [procScan, hinit, h.trace_len]
        · simp [procScan, hinit]
        · have hconcat := List.range'_1_concat 1 s.cnt
          simp [procScan, hinit, h.ids, hconcat, Nat.add_comm]
        · have hl := h.logPat
          rw [if_neg hcne] at hl
          simp [procScan, hinit, hl, List.replicate_succ', List.append_assoc]
        · have hb := h.bootCnt
          rw [if_neg hcne] at hb
          simp [procScan, hinit, hb]
        · have hb := h.bootPat
          rw [if_neg hcne] at hb
          simp [procScan, hinit, hb, hn, List.replicate_succ', List.append_assoc]
        · rw [show (procScan o s c).trace = s.trace ++
            [{ id := s.cnt + 1, bootGps := none, bootBest := none, mapUsed := s.map_points,
               guess := s.init_guess,
               result := (o.reg (o.vf o.scanLeafSize c) (o.vf o.mapLeafSize s.map_points)
                 s.init_guess).1 }] by simp [procScan, hinit]]
          rw [List.chain'_append]
          refine ⟨h.chain, List.chain'_singleton _, ?_⟩
          intro x hx y hy
          have hlast := h.lastResult
          rw [if_neg hcne] at hlast
          rw [Option.mem_def] at hx
          rw [hx] at hlast
          simp at hlast
          simp at hy
          rw [← hy]
          exact hlast.symm
        · have hf := h.firstGuess
          rw [ht] at hf
          simp at hf
          simp [procScan, hinit, ht]
          exact hf
        · simp [procScan, hinit, List.getLast?_concat]
        · have hs := h.scoreSum
          simp [procScan, hinit, hs, List.filter_append]
        · simp [procScan, hinit, List.filter_append, h.steadyCnt]
      · -- first processed frame: the heading search runs
        rw [Bool.not_eq_true] at hinit
        have hcnt0 : s.cnt = 0 := by
          have hf := h.init_flag
          rw [hinit] at hf
          have := of_decide_eq_false hf.symm
          omega
        have htr0 : s.trace = [] := by
          have := h.trace_len
          rw [hcnt0] at this
          exact List.length_eq_zero.mp this
        have hlog0 : s.regLog = [] := by
          have := h.logPat
          rw [if_pos hcnt0] at this
          exact List.map_eq_nil_iff.mp this
        refine ⟨?_, ?_, ?_, ?_, ?_, ?_, ?_, ?_, ?_, ?_, ?_⟩
        · simp [procScan, hinit, htr0, hcnt0]
        · simp [procScan, hinit]
        · simp [procScan, hinit, htr0, hcnt0, List.range']
        · simp [procScan, hinit, hlog0, hcnt0, map_isBoot_boot, headings_eq]
        · simp [procScan, hinit, hlog0, hcnt0, List.filter_append, filter_boot_boot,
            headings_eq]
        · simp [procScan, hinit, htr0, hcnt0]
        · simp [procScan, hinit, htr0]
        · simp [procScan, hinit, htr0]
        · simp [procScan, hinit, htr0, hcnt0, List.getLast?_concat]
        · have hs := h.scoreSum
          rw [hlog0] at hs
          simp at hs
          simp [procScan, hinit, hlog0, hcnt0, hs, List.filter_append, filter_steady_boot]
        · simp [procScan, hinit, hlog0, hcnt0, List.filter_append, filter_steady_boot]
    · rw [show stepEv o s (Ev.scan c) = s by simp [stepEv, hr]]
      exact h

/-- Processing any event list preserves the invariant. -/
theorem runFrom_inv {C P : Type} (o : Collab C P) :
    ∀ (evs : List (Ev C)) (s : St C P), InvSt s → InvSt (runFrom o s evs)
  | [], _, h => h
  | e :: evs, s, h => runFrom_inv o evs (stepEv o s e) (InvSt.step o s e h)

/-- The invariant holds after every run. -/
theorem run_inv {C P : Type} (o : Collab C P) (evs : List (Ev C)) : InvSt (run o evs) :=
  runFrom_inv o evs (s0 o) (inv_s0 o)

/-- Scan processing never touches the stored fix or its readiness flag. -/
theorem stepEv_scan_gps {C P : Type} (o : Collab C P) (s : St C P) (c : C) :
    (stepEv o s (Ev.scan c)).gps_point = s.gps_point ∧
    (stepEv o s (Ev.scan c)).gps_ready = s.gps_ready := by
  by_cases hr : (s.gps_ready && s.map_ready) = true <;> simp [stepEv, hr, procScan]

/-- Scan processing never touches the stored map or its readiness flag. -/
theorem stepEv_scan_map {C P : Type} (o : Collab C P) (s : St C P) (c : C) :
    (stepEv o s (Ev.scan c)).map_points = s.map_points ∧
    (stepEv o s (Ev.scan c)).map_ready = s.map_ready := by
  by_cases hr : (s.gps_ready && s.map_ready) = true <;> simp [stepEv, hr, procScan]

/-- The stored fix after a run is the payload of the last fix event (every
`gps_callback` overwrites `gps_point`), and `gps_ready` records whether any fix
arrived. -/
theorem runFrom_gps {C P : Type} (o : Collab C P) :
    ∀ (evs : List (Ev C)) (s : St C P),
      (runFrom o s evs).gps_point = (lastGps? evs).getD s.gps_point ∧
      (runFrom o s evs).gps_ready = (s.gps_ready || (lastGps? evs).isSome)
  | [], s => by simp [runFrom, lastGps?]
  | e :: evs, s => by
    obtain ⟨ih1, ih2⟩ := runFrom_gps o evs (stepEv o s e)
    have hstep : runFrom o s (e :: evs) = runFrom o (stepEv o s e) evs := rfl
    rw [hstep]
    cases hl : lastGps? evs with
    | some p =>
      rw [hl] at ih1 ih2
      rw [show lastGps? (e :: evs) = some p by simp [lastGps?, hl]]
      refine ⟨by simpa using ih1, ?_⟩
      rw [ih2]
      simp
    | none =>
      rw [hl] at ih1 ih2
      rw [Option.getD_none] at ih1
      cases e with
      | map m =>
        rw [show lastGps? (Ev.map m :: evs) = none by simp [lastGps?, hl]]
        refine ⟨by simpa using ih1, ?_⟩
        rw [ih2]
        simp [stepEv]
      | gps p =>
        rw [show lastGps? (Ev.gps p :: evs) = some p by simp [lastGps?, hl]]
        refine ⟨by simpa using ih1, ?_⟩
        rw [ih2]
        simp [stepEv]
      | scan c =>
        rw [show lastGps? (Ev.scan c :: evs) = none by simp [lastGps?, hl]]
        constructor
        · rw [ih1, Option.getD_none]
          exact (stepEv_scan_gps o s c).1
        · rw [ih2, (stepEv_scan_gps o s c).2]

/-- The stored map after a run is the payload of the last map event (every
`map_callback` overwrites `map_points`), and `map_ready` records whether any map
arrived. -/
theorem runFrom_map {C P : Type} (o : Collab C P) :
    ∀ (evs : List (Ev C)) (s : St C P),
      (runFrom o s evs).map_points = (lastMap? evs).getD s.map_points ∧
      (runFrom o s evs).map_ready = (s.map_ready || (lastMap? evs).isSome)
  | [], s => by simp [runFrom, lastMap?]
  | e :: evs, s => by
    obtain ⟨ih1, ih2⟩ := runFrom_map o evs (stepEv o s e)
    have hstep : runFrom o s (e :: evs) = runFrom o (stepEv o s e) evs := rfl
    rw [hstep]
    cases hl : lastMap? evs with
    | some m =>
      rw [hl] at ih1 ih2
      rw [show lastMap? (e :: evs) = some m by simp [lastMap?, hl]]
      refine ⟨by simpa using ih1, ?_⟩
      rw [ih2]
      simp
    | none =>
      rw [hl] at ih1 ih2
      rw [Option.getD_none] at ih1
      cases e with
      | gps p =>
        rw [show lastMap? (Ev.gps p :: evs) = none by simp [lastMap?, hl]]
        refine ⟨by simpa using ih1, ?_⟩
        rw [ih2]
        simp [stepEv]
      | map m =>
        rw [show lastMap? (Ev.map m :: evs) = some m by simp [lastMap?, hl]]
        refine ⟨by simpa using ih1, ?_⟩
        rw [ih2]
        simp [stepEv]
      | scan c =>
        rw [show lastMap? (Ev.scan c :: evs) = none by simp [lastMap?, hl]]
        constructor
        · rw [ih1, Option.getD_none]
          exact (stepEv_scan_map o s c).1
        · rw [ih2, (stepEv_scan_map o s c).2]

/-- Specialization of `runFrom_gps` to a run from the constructor's state. -/
theorem run_gps {C P : Type} (o : Collab C P) (evs : List (Ev C)) :
    (run o evs).gps_point = (lastGps? evs).getD ⟨0, 0, 0⟩ ∧
    (run o evs).gps_ready = (lastGps? evs).isSome := by
  have h := runFrom_gps o evs (s0 o)
  simpa [s0, run] using h

/-- Specialization of `runFrom_map` to a run from the constructor's state. -/
theorem run_map {C P : Type} (o : Collab C P) (evs : List (Ev C)) :
    (run o evs).map_points = (lastMap? evs).getD o.emptyC ∧
    (run o evs).map_ready = (lastMap? evs).isSome := by
  have h := runFrom_map o evs (s0 o)
  simpa [s0, run] using h

/-- Before any scan is processed, the frame-processing state is untouched. -/
theorem runFrom_noScan {C P : Type} (o : Collab C P) :
    ∀ (evs : List (Ev C)) (s : St C P), (∀ e ∈ evs, e.isScan = false) →
      (runFrom o s evs).cnt = s.cnt ∧ (runFrom o s evs).trace = s.trace ∧
      (runFrom o s evs).initialied = s.initialied
  | [], _, _ => ⟨rfl, rfl, rfl⟩
  | e :: evs, s, h => by
    have he := h e (List.mem_cons_self e evs)
    have hrest : ∀ x ∈ evs, x.isScan = false := fun x hx => h x (List.mem_cons_of_mem e hx)
    have ih := runFrom_noScan o evs (stepEv o s e) hrest
    have hstep : runFrom o s (e :: evs) = runFrom o (stepEv o s e) evs := rfl
    rw [hstep]
    cases e with
    | map m => simpa [stepEv] using ih
    | gps p => simpa [stepEv] using ih
    | scan c => simp [Ev.isScan] at he

/-- A run on an extended event list is one dispatch after the run on the prefix. -/
theorem run_append {C P : Type} (o : Collab C P) (evs : List (Ev C)) (e : Ev C) :
    run o (evs ++ [e]) = stepEv o (run o evs) e := by
  simp [run, runFrom, List.foldl_append]

/-- Claim C2: registration is warm-started with the previous frame's refined transform,
unmodified: consecutive trace rows chain (row N+1's initial guess is row N's result);
the first row's guess is the heading search's selected pose (its recorded `bootBest`);
and after any run the tracker's current transform equals the last processed frame's
registrar output. -/
theorem C2_warm_start {C P : Type} (o : Collab C P) (evs : List (Ev C)) :
    List.Chain' (fun a b => b.guess = a.result) (run o evs).trace ∧
    (run o evs).trace.head?.map (fun r => r.bootBest) =
      (run o evs).trace.head?.map (fun r => some r.guess) ∧
    (run o evs).trace.getLast?.map (fun r => r.result) =
      (if (run o evs).cnt = 0 then none else some (run o evs).init_guess) :=
  ⟨(run_inv o evs).chain, (run_inv o evs).firstGuess, (run_inv o evs).lastResult⟩

/-- Claim C6: the sequence ids written to the trace are exactly `1, 2, ..., N` for a run
processing `N` frames: one row per processed frame, in arrival order, ids strictly
increasing by one from 1. -/
theorem C6_sequence_ids {C P : Type} (o : Collab C P) (evs : List (Ev C)) :
    (run o evs).trace.map (fun r => r.id) = List.range' 1 (run o evs).cnt ∧
    (run o evs).trace.length = (run o evs).cnt :=
  ⟨(run_inv o evs).ids, (run_inv o evs).trace_len⟩

/-- Claim C9: the heading search executes exactly once, during the first processed
frame, before any steady-state registration: the registrar log is one block of
heading-search calls followed only by steady-state calls, only the first trace row
carries a heading-search result, and the `initialied` flag is set exactly once a frame
has been processed (so the bootstrap branch is never re-entered). -/
theorem C9_bootstrap_once {C P : Type} (o : Collab C P) (evs : List (Ev C)) :
    (run o evs).regLog.map (fun c => c.isBoot) =
      (if (run o evs).cnt = 0 then []
       else List.replicate 4 true ++ List.replicate (run o evs).cnt false) ∧
    (run o evs).trace.map (fun r => r.bootBest.isSome) =
      (if (run o evs).cnt = 0 then []
       else true :: List.replicate ((run o evs).cnt - 1) false) ∧
    (run o evs).initialied = decide (0 < (run o evs).cnt) :=
  ⟨(run_inv o evs).logPat, (run_inv o evs).bootPat, (run_inv o evs).init_flag⟩

/-- Claim C10: the cumulative `localization_score` logged at shutdown is the sum of the
steady-state registrations' fitness scores, one per processed frame (the first frame's
steady-state call included), with the heading-search scores excluded. -/
theorem C10_score_sum {C P : Type} (o : Collab C P) (evs : List (Ev C)) :
    (run o evs).localization_score =
      (((run o evs).regLog.filter fun c => !c.isBoot).map (fun c => c.fitness)).sum ∧
    ((run o evs).regLog.filter fun c => !c.isBoot).length = (run o evs).cnt :=
  ⟨(run_inv o evs).scoreSum, (run_inv o evs).steadyCnt⟩

/-- Counterexample to claim C3: on a concrete run that processes one frame, the heading
search enumerates `yaw = 0, 0.05, 0.10, 0.15` and invokes the registrar 4 times, not 5
(the loop `for (yaw = 0; yaw < 0.2; yaw += 0.05)` excludes 0.2). -/
theorem C3_counterexample :
    (run exO [Ev.gps ⟨3, 4, 0⟩, Ev.map 1, Ev.scan 2]).cnt = 1 ∧
    ((run exO [Ev.gps ⟨3, 4, 0⟩, Ev.map 1, Ev.scan 2]).regLog.filter
        fun c => c.isBoot).length = 4 ∧
    ¬ ((run exO [Ev.gps ⟨3, 4, 0⟩, Ev.map 1, Ev.scan 2]).regLog.filter
        fun c => c.isBoot).length = 5 :=
  ⟨by with_unfolding_all decide, by with_unfolding_all decide, by with_unfolding_all decide⟩

/-- Claim C3 (amended): with range 0.2 and step 0.05 the bootstrap enumerates the four
headings 0, 0.05, 0.10, 0.15 of `[0, 0.2)` and invokes the registrar exactly 4 times,
once per candidate heading (and the fuel in the loop model is not load-bearing). -/
theorem C3_amended {C P : Type} (o : Collab C P) (evs : List (Ev C)) :
    ((run o evs).regLog.filter fun c => c.isBoot).length =
      (if (run o evs).cnt = 0 then 0 else 4) ∧
    headings = [0, 1/20, 1/10, 3/20] ∧
    ∀ n : ℕ, headingsFrom 0 (n + 5) = headings :=
  ⟨(run_inv o evs).bootCnt, headings_eq, headings_fuel_ge⟩

/-- Counterexample to claim C4: two fixes arrive before the first scan; the bootstrap
heading search uses the coordinates of the second fix, not the first. -/
theorem C4_counterexample :
    ((run exO [Ev.gps ⟨1, 0, 0⟩, Ev.gps ⟨2, 0, 0⟩, Ev.map 5, Ev.scan 9]).trace.map
        fun r => r.bootGps) = [some ⟨2, 0, 0⟩] ∧
    ¬ ((run exO [Ev.gps ⟨1, 0, 0⟩, Ev.gps ⟨2, 0, 0⟩, Ev.map 5, Ev.scan 9]).trace.map
        fun r => r.bootGps) = [some ⟨1, 0, 0⟩] :=
  ⟨by with_unfolding_all decide, by with_unfolding_all decide⟩

/-- Claim C4 (amended): the bootstrap heading search is seeded with the coordinates of
the LAST `AbsolutePositionFix` delivered before the first scan is processed — every
incoming fix overwrites the stored position. -/
theorem C4_amended {C P : Type} (o : Collab C P) (pre : List (Ev C)) (c : C)
    (hns : ∀ e ∈ pre, e.isScan = false)
    (hg : (run o pre).gps_ready = true) (hm : (run o pre).map_ready = true) :
    ∃ p, lastGps? pre = some p ∧
      ((run o (pre ++ [Ev.scan c])).trace.map fun r => r.bootGps) = [some p] := by
  have hgp := run_gps o pre
  have hsome : (lastGps? pre).isSome = true := by rw [← hgp.2]; exact hg
  obtain ⟨p, hp⟩ := Option.isSome_iff_exists.mp hsome
  refine ⟨p, hp, ?_⟩
  have hns' := runFrom_noScan o pre (s0 o) hns
  have htr : (run o pre).trace = [] := hns'.2.1
  have hini : (run o pre).initialied = false := hns'.2.2
  rw [run_append]
  rw [show stepEv o (run o pre) (Ev.scan c) = procScan o (run o pre) c by
    simp [stepEv, hg, hm]]
  simp [procScan, hini, htr]
  rw [hgp.1, hp]
  rfl

/-- Counterexample to claim C8: two map messages arrive before the first scan; the
frame's registration target is derived from the second map, not the first. -/
theorem C8_counterexample :
    ((run exO [Ev.gps ⟨0, 0, 0⟩, Ev.map 1, Ev.map 2, Ev.scan 9]).trace.map
        fun r => r.mapUsed) = [2] ∧
    ¬ ((run exO [Ev.gps ⟨0, 0, 0⟩, Ev.map 1, Ev.map 2, Ev.scan 9]).trace.map
        fun r => r.mapUsed) = [1] :=
  ⟨by with_unfolding_all decide, by with_unfolding_all decide⟩

/-- Claim C8 (amended): every map message wholesale-replaces the stored map, so the
stored map after any run is the last delivered map (apart from this replacement no
operation mutates it), and a processed frame's registration target is derived from the
map most recently delivered before that frame. -/
theorem C8_amended {C P : Type} (o : Collab C P) (pre : List (Ev C)) (c : C)
    (hg : (run o pre).gps_ready = true) (hm : (run o pre).map_ready = true) :
    (∀ evs : List (Ev C), (run o evs).map_points = (lastMap? evs).getD o.emptyC) ∧
    ∃ m, lastMap? pre = some m ∧
      ((run o (pre ++ [Ev.scan c])).trace.map fun r => r.mapUsed) =
        ((run o pre).trace.map fun r => r.mapUsed) ++ [m] := by
  constructor
  · intro evs
    exact (run_map o evs).1
  · have hmp := run_map o pre
    have hsome : (lastMap? pre).isSome = true := by rw [← hmp.2]; exact hm
    obtain ⟨m, hmEq⟩ := Option.isSome_iff_exists.mp hsome
    refine ⟨m, hmEq, ?_⟩
    rw [run_append]
    rw [show stepEv o (run o pre) (Ev.scan c) = procScan o (run o pre) c by
      simp [stepEv, hg, hm]]
    have hrec : (procScan o (run o pre) c).trace.map (fun r => r.mapUsed) =
        ((run o pre).trace.map fun r => r.mapUsed) ++ [(run o pre).map_points] := by
      by_cases hini : (run o pre).initialied = true
      · simp [procScan, hini]
      · rw [Bool.not_eq_true] at hini
        simp [procScan, hini]
    rw [hrec, hmp.1, hmEq]
    rfl

/-- Witness for C4 (amended): one fix then one map arrive, then a scan; the single
trace row's recorded bootstrap fix is the last (here only) fix. -/
theorem C4_amended_witness :
    (∀ e ∈ ([Ev.gps ⟨1, 2, 3⟩, Ev.map 5] : List (Ev ℕ)), e.isScan = false) ∧
    (run exO [Ev.gps ⟨1, 2, 3⟩, Ev.map 5]).gps_ready = true ∧
    (run exO [Ev.gps ⟨1, 2, 3⟩, Ev.map 5]).map_ready = true ∧
    ∃ p, lastGps? ([Ev.gps ⟨1, 2, 3⟩, Ev.map 5] : List (Ev ℕ)) = some p ∧
      ((run exO ([Ev.gps ⟨1, 2, 3⟩, Ev.map 5] ++ [Ev.scan 9])).trace.map
          fun r => r.bootGps) = [some p] :=
  ⟨by decide, by decide, by decide,
    C4_amended exO [Ev.gps ⟨1, 2, 3⟩, Ev.map 5] 9 (by decide) (by decide) (by decide)⟩

/-- Witness for C8 (amended): one fix and one map arrive, then a scan; the appended
trace row's registration-target map is the last (here only) delivered map. -/
theorem C8_amended_witness :
    (run exO [Ev.gps ⟨0, 0, 0⟩, Ev.map 3]).gps_ready = true ∧
    (run exO [Ev.gps ⟨0, 0, 0⟩, Ev.map 3]).map_ready = true ∧
    ((∀ evs : List (Ev ℕ), (run exO evs).map_points = (lastMap? evs).getD exO.emptyC) ∧
      ∃ m, lastMap? ([Ev.gps ⟨0, 0, 0⟩, Ev.map 3] : List (Ev ℕ)) = some m ∧
        ((run exO ([Ev.gps ⟨0, 0, 0⟩, Ev.map 3] ++ [Ev.scan 9])).trace.map
            fun r => r.mapUsed) =
          ((run exO [Ev.gps ⟨0, 0, 0⟩, Ev.map 3]).trace.map fun r => r.mapUsed) ++ [m]) :=
  ⟨by decide, by decide,
    C8_amended exO [Ev.gps ⟨0, 0, 0⟩, Ev.map 3] 9 (by decide) (by decide)⟩

/-- Counterexample to claim C5: with the default (empty) extrinsics — a malformed
configuration with wrong element counts — the constructor logs the error but then the
first bounds-checked access throws: processing does not continue, contradicting
"no exception or abort occurs". -/
theorem C5_counterexample :
    (ctorSetup [] []).1 = true ∧ (ctorSetup [] []).2 = Except.error () :=
  ⟨rfl, rfl⟩

/-- Claim C5 (amended): on malformed extrinsics the error is only logged; processing
then continues without exception exactly when both lists still have at least 3
(respectively 4) elements; if either list is shorter, a bounds-checked element access
throws and startup aborts. -/
theorem C5_amended (trans rot : List ℚ) :
    ((ctorSetup trans rot).1 = decide (¬ trans.length = 3 ∨ ¬ rot.length = 4)) ∧
    (3 ≤ trans.length → 4 ≤ rot.length →
      ∃ car, (ctorSetup trans rot).2 = Except.ok car) ∧
    (trans.length < 3 ∨ rot.length < 4 → (ctorSetup trans rot).2 = Except.error ()) := by
  refine ⟨rfl, ?_, ?_⟩
  · intro ht hr
    rcases trans with _ | ⟨a, _ | ⟨b, _ | ⟨c, t⟩⟩⟩
    · simp at ht
    · simp at ht
    · simp at ht
    · rcases rot with _ | ⟨d, _ | ⟨e, _ | ⟨f, _ | ⟨g, r⟩⟩⟩⟩
      · simp at hr
      · simp at hr
      · simp at hr
      · simp at hr
      · exact ⟨_, rfl⟩
  · intro h
    rcases trans with _ | ⟨a, _ | ⟨b, _ | ⟨c, t⟩⟩⟩
    · rfl
    · rfl
    · rfl
    · have hr4 : rot.length < 4 := by
        rcases h with h | h
        · simp at h
          omega
        · exact h
      rcases rot with _ | ⟨d, _ | ⟨e, _ | ⟨f, _ | ⟨g, r⟩⟩⟩⟩
      · rfl
      · rfl
      · rfl
      · rfl
      · simp at hr4
        omega

/-- Witness for C5 (amended): a well-formed configuration passes both hypotheses and
yields a stored extrinsics value. -/
theorem C5_amended_witness :
    (3 ≤ ([1, 2, 3] : List ℚ).length) ∧ (4 ≤ ([0, 0, 0, 1] : List ℚ).length) ∧
    ∃ car, (ctorSetup [1, 2, 3] [0, 0, 0, 1]).2 = Except.ok car :=
  ⟨by decide, by decide,
    (C5_amended [1, 2, 3] [0, 0, 0, 1]).2.1 (by decide) (by decide)⟩

/-!
### Frame composition (claim C7)

`pc_callback` (lines 169-182): `transform_m2l.matrix() = result` (the registration
output, a map-to-sensor transform); `transform_c2l = tf2::transformToEigen(car2Lidar)`
(the static extrinsics, a unit quaternion converted to a rotation matrix plus a
translation); `tf_p = transform_m2l * transform_c2l.inverse()`, and `tf_p`'s
translation and rotation are what the row records.  `Eigen`'s `inverse()` in the
default `Affine` mode inverts the linear part as a general matrix; the spec instead
speaks of composing with the inverse of the rigid transform.  The two agree because a
unit quaternion's rotation matrix is orthogonal.
-/

/-- The transpose of the quaternion rotation matrix, written out. -/
theorem quatToMat_transpose (x y z w : ℚ) :
    (quatToMat x y z w).transpose =
      !![1 - 2*(y^2 + z^2), 2*(x*y + z*w), 2*(x*z - y*w);
         2*(x*y - z*w), 1 - 2*(x^2 + z^2), 2*(y*z + x*w);
         2*(x*z + y*w), 2*(y*z - x*w), 1 - 2*(x^2 + y^2)] := by
  unfold quatToMat
  ext i j
  fin_cases i <;> fin_cases j <;> simp

/-- The rotation matrix of a unit quaternion is orthogonal. -/
theorem quatToMat_mul_transpose (x y z w : ℚ) (h : x^2 + y^2 + z^2 + w^2 = 1) :
    quatToMat x y z w * (quatToMat x y z w).transpose = 1 := by
  rw [quatToMat_transpose, Matrix.one_fin_three]
  unfold quatToMat
  rw [Matrix.mul_fin_three]
  ext i j
  fin_cases i <;> fin_cases j <;>
    simp [Matrix.vecHead, Matrix.vecTail] <;>
    first
      | linear_combination (4*(y^2 + z^2)) * h
      | linear_combination (4*(x^2 + z^2)) * h
      | linear_combination (4*(x^2 + y^2)) * h
      | linear_combination (-(4*x*y)) * h
      | linear_combination (-(4*x*z)) * h
      | linear_combination (-(4*y*z)) * h

/-- The adjugate-based inverse agrees with Mathlib's matrix inverse. -/
theorem matInvQ_eq_inv (A : Matrix (Fin 3) (Fin 3) ℚ) : matInvQ A = A⁻¹ := by
  rw [Matrix.inv_def, matInvQ, Ring.inverse_eq_inv]

/-- For an extrinsics built from a unit quaternion, the general affine inverse used by
the code coincides with the rigid-transform inverse of the spec. -/
theorem affInv_eq_rigidInv (x y z w : ℚ) (t : Fin 3 → ℚ)
    (h : x^2 + y^2 + z^2 + w^2 = 1) :
    affInv { lin := quatToMat x y z w, tr := t } =
      rigidInv { lin := quatToMat x y z w, tr := t } := by
  have hinv : matInvQ (quatToMat x y z w) = (quatToMat x y z w).transpose := by
    rw [matInvQ_eq_inv]
    exact Matrix.inv_eq_right_inv (quatToMat_mul_transpose x y z w h)
  simp [affInv, rigidInv, hinv]

/-- Claim C7: for every frame, the recorded map-to-vehicle pose equals the full
rigid-transform composition of the frame's registration result with the inverse of
the static sensor extrinsics (whose rotation comes from a unit quaternion):
`mapToVehicle = mapToSensor ∘ inverse(sensorToVehicle)`, rotation and translation
composed jointly. -/
theorem C7_frame_composition (result : Aff) (x y z w : ℚ) (t : Fin 3 → ℚ)
    (h : x^2 + y^2 + z^2 + w^2 = 1) :
    recordedPose result x y z w t =
      specMapToVehicle result { lin := quatToMat x y z w, tr := t } := by
  rw [recordedPose, specMapToVehicle, affInv_eq_rigidInv x y z w t h]

/-- Witness for C7 at the unit quaternion (0, 0, 1, 0) — a rotation by pi about the
vertical axis — with a concrete registration result and translation. -/
theorem C7_frame_composition_witness :
    ((0 : ℚ)^2 + 0^2 + 1^2 + 0^2 = 1) ∧
    recordedPose { lin := 1, tr := ![4, 5, 6] } 0 0 1 0 ![1, 2, 3] =
      specMapToVehicle { lin := 1, tr := ![4, 5, 6] }
        { lin := quatToMat 0 0 1 0, tr := ![1, 2, 3] } :=
  ⟨by norm_num, C7_frame_composition { lin := 1, tr := ![4, 5, 6] } 0 0 1 0 ![1, 2, 3]
    (by norm_num)⟩

end LocalizerModel
